import Mathlib

/-!
Verification of the PerfKindleloganalyzer log-extraction core.

This file embeds, in Lean, the log-to-measurement extraction algorithm of the
repository: the regex-based line extractors of
`final_working_solution/logic/event_parser.py` and the correlation engine
`LogProcessor.process_iteration` / iteration splitter of
`logic/log_processor.py`.  Lines are modelled as lists of characters; Python
`re.search` is modelled by trying an anchored matcher at every start position
(leftmost match), with the greedy/backtracking behaviour of each concrete
pattern worked out by hand and noted at each matcher.  Python `dict`s are
modelled as insertion-ordered association lists with last-write-wins update;
fallible Python operations (`int(...)` on an arbitrary string, `dict[k]`,
`list[...]`, `max(...)`) are modelled in `Except`, where an `.error` value
corresponds to a raised exception.
-/

/-- Python strings are modelled as lists of characters. -/
abbrev Str := List Char

/-- Shorthand turning a Lean string literal into the `Str` model. -/
def s (x : String) : Str := x.data

/-- Python `str.isspace` characters relevant to `str.strip()` (ASCII whitespace). -/
def pyIsSpace (c : Char) : Bool :=
  c = ' ' || c = '\t' || c = '\n' || c = '\r' || c = '\x0b' || c = '\x0c'

/-- Python `line.strip()`: remove leading and trailing whitespace. -/
def pyStrip (l : Str) : Str :=
  ((l.dropWhile pyIsSpace).reverse.dropWhile pyIsSpace).reverse

/-- Python `str.lower()` (ASCII). -/
def pyLower (l : Str) : Str := l.map Char.toLower

/-- Value of a decimal digit string, as computed by Python `int` on an
all-digit string (only applied to regex captures of `\d+`). -/
def strToNat (l : Str) : Nat :=
  l.foldl (fun acc c => acc * 10 + (c.toNat - '0'.toNat)) 0

/-- Python slice `l[-n:]`: the last `n` characters (all of `l` when shorter). -/
def takeLast (n : Nat) (l : Str) : Str := l.drop (l.length - n)

/-- Python `str.split(sep)` for a one-character separator. -/
def splitOnChar (sep : Char) : Str → List Str
  | [] => [[]]
  | c :: t =>
    let r := splitOnChar sep t
    if c = sep then [] :: r
    else
      match r with
      | h :: t' => (c :: h) :: t'
      | [] => [[c]]

/-- Substring test: Python `needle in hay`. -/
def containsSub (needle : Str) : Str → Bool
  | [] => needle.isPrefixOf []
  | c :: t => needle.isPrefixOf (c :: t) || containsSub needle t

/-- Python `re.search` over an anchored matcher: try the matcher at every
start position, left to right, returning the leftmost success. -/
def reSearch (m : Str → Option α) : Str → Option α
  | [] => m []
  | c :: t =>
    match m (c :: t) with
    | some r => some r
    | none => reSearch m t

/-- Anchored matcher for `LIT(\d+)` (e.g. `height=(\d+)`, `end time=(\d+)`,
`update end marker=(\d+)`): the literal followed by a nonempty maximal digit
run, captured.  With no context after the greedy `\d+`, the match is exactly
the maximal run. -/
def matchLitDigits (lit : Str) (t : Str) : Option Str :=
  if lit.isPrefixOf t then
    let ds := (t.drop lit.length).takeWhile Char.isDigit
    if ds = [] then none else some ds
  else none

/-- Anchored matcher for `LIT(\d+)\]` (the marker patterns `EPDC\]\[(\d+)\]`
and `mxc_epdc_fb: \[(\d+)\]`): literal, nonempty maximal digit run, then `]`.
Backtracking the greedy `\d+` cannot help (a shorter run leaves a digit where
`]` is required), so the run is maximal and must be followed by `]`. -/
def matchLitDigitsBracket (lit : Str) (t : Str) : Option Str :=
  if lit.isPrefixOf t then
    let r := t.drop lit.length
    let ds := r.takeWhile Char.isDigit
    if ds = [] then none
    else
      match r.drop ds.length with
      | ']' :: _ => some ds
      | _ => none
  else none

/-- Anchored matcher for `width=\d+, height=(\d+)`: same greedy analysis as
`matchLitDigits`, applied twice around the literal `, height=`. -/
def matchWidthHeight (t : Str) : Option Str :=
  if (s "width=").isPrefixOf t then
    let r1 := t.drop 6
    let d1 := r1.takeWhile Char.isDigit
    if d1 = [] then none
    else
      let r2 := r1.drop d1.length
      if (s ", height=").isPrefixOf r2 then
        let d2 := (r2.drop 9).takeWhile Char.isDigit
        if d2 = [] then none else some d2
      else none
  else none

/-- Anchored matcher for `LIT(\d+\.\d+)TRAIL` (the start-timestamp patterns;
`TRAIL` is empty except for the suspend pattern's `:Power button pressed`).
Each greedy `\d+` takes its maximal run: shortening the first leaves a digit
where `.` is required, shortening the second leaves a digit where the
(digit-free) trail is required.  The capture is returned as the matched
`digits.digits` text, exactly as `match.group(1)` returns it. -/
def matchTsCapture (lit trail : Str) (t : Str) : Option Str :=
  if lit.isPrefixOf t then
    let r := t.drop lit.length
    let d1 := r.takeWhile Char.isDigit
    if d1 = [] then none
    else
      match r.drop d1.length with
      | '.' :: r2 =>
        let d2 := r2.takeWhile Char.isDigit
        if d2 = [] then none
        else if trail.isPrefixOf (r2.drop d2.length) then some (d1 ++ '.' :: d2)
        else none
      | _ => none
  else none

/-- Lowercase-hex character class `[\da-f]` of the waveform patterns. -/
def isHexLower (c : Char) : Bool := c.isDigit || ('a' ≤ c && c ≤ 'f')

/-- Character class `[\w_() ]` of the waveform-name capture. -/
def isWfClass (c : Char) : Bool :=
  c.isAlphanum || c = '_' || c = '(' || c = ')' || c = ' '

/-- Index of the last occurrence of `c`. -/
def lastIdxOf (c : Char) : Str → Option Nat
  | [] => none
  | a :: t =>
    match lastIdxOf c t with
    | some i => some (i + 1)
    | none => if a = c then some 0 else none

/-- Anchored matcher for `(?:0x)?[\da-f]+ \(([\w_() ]+)\)` (the part of every
waveform pattern after its leading literal).  Backtracking analysis:
if the text starts with `0x` the optional group must take it (declining it
strands `x` where a space is required); the hex run is maximal; the capture
class contains `)`, so the greedy `[\w_() ]+` ends at the LAST `)` inside the
maximal class run, which must leave a nonempty capture. -/
def matchHexParen (t : Str) : Option Str :=
  let body := if (s "0x").isPrefixOf t then t.drop 2 else t
  let hex := body.takeWhile isHexLower
  if hex = [] then none
  else
    let u := body.drop hex.length
    if (s " (").isPrefixOf u then
      let r := (u.drop 2).takeWhile isWfClass
      match lastIdxOf ')' r with
      | some k => if 1 ≤ k then some (r.take k) else none
      | none => none
    else none

/-- Anchored matcher for a full waveform pattern: its leading literal followed
by `matchHexParen`. -/
def matchWaveform (lit : Str) (t : Str) : Option Str :=
  if lit.isPrefixOf t then matchHexParen (t.drop lit.length) else none

/-!  ## The event parsers (`final_working_solution/logic/event_parser.py`) -/

/-- `BaseEventParser.extract_marker`: try `EPDC\]\[(\d+)\]` then
`mxc_epdc_fb: \[(\d+)\]`, returning the first captured digit group. -/
def extract_marker (line : Str) : Option Str :=
  match reSearch (matchLitDigitsBracket (s "EPDC][")) line with
  | some m => some m
  | none =>
    match reSearch (matchLitDigitsBracket (s "mxc_epdc_fb: [")) line with
    | some m => some m
    | none => none

/-- A height/waveform extraction result (`{'height': ..., 'waveform': ...}`). -/
structure HW where
  height : Nat
  waveform : Str
deriving DecidableEq

/-- The four waveform-name patterns of `extract_height_and_waveform`, tried in
source order; the capture is `.strip()`ped. -/
def waveform_capture (line : Str) : Option Str :=
  match reSearch (matchWaveform (s "new waveform = ")) line with
  | some w => some (pyStrip w)
  | none =>
    match reSearch (matchWaveform (s "waveform:")) line with
    | some w => some (pyStrip w)
    | none =>
      match reSearch (matchWaveform (s "waveform=")) line with
      | some w => some (pyStrip w)
      | none =>
        match reSearch (matchWaveform (s "Sending update. waveform:")) line with
        | some w => some (pyStrip w)
        | none => none

/-- `BaseEventParser.extract_height_and_waveform`: `height=(\d+)` with
fallback `width=\d+, height=(\d+)`; waveform name defaults to `"unknown"`
when no pattern matched or the stripped capture is empty
(`waveform_name if waveform_name else "unknown"`). -/
def extract_height_and_waveform (line : Str) : Option HW :=
  let height_match :=
    match reSearch (matchLitDigits (s "height=")) line with
    | some d => some d
    | none => reSearch matchWidthHeight line
  match height_match with
  | some ds =>
    some ⟨strToNat ds,
      match waveform_capture line with
      | some w => if w = [] then s "unknown" else w
      | none => s "unknown"⟩
  | none => none

/-- `BaseEventParser.extract_end_timestamp`: `end time=(\d+)`, then the last
6 characters of the captured digit string, as an integer. -/
def extract_end_timestamp (line : Str) : Option Nat :=
  match reSearch (matchLitDigits (s "end time=")) line with
  | some ds => some (strToNat (takeLast 6 ds))
  | none => none

/-- The capture search of `DefaultEventParser.extract_start_timestamp`:
`button 1 up (\d+\.\d+)`. -/
def search_default_start (line : Str) : Option Str :=
  reSearch (matchTsCapture (s "button 1 up ") []) line

/-- The capture search of `SwipeEventParser.extract_start_timestamp`:
`Sending button 1 down (\d+\.\d+)`. -/
def search_swipe_start (line : Str) : Option Str :=
  reSearch (matchTsCapture (s "Sending button 1 down ") []) line

/-- The capture search of `SuspendEventParser.extract_start_timestamp`:
`def:pbpress:time=(\d+\.\d+):Power button pressed`. -/
def search_suspend_start (line : Str) : Option Str :=
  reSearch (matchTsCapture (s "def:pbpress:time=") (s ":Power button pressed")) line

/-- `DefaultEventParser.extract_start_timestamp`: split the capture on `.`;
with exactly two components, concatenate the last 3 digits of the integer
part with the first 3 digits of the fraction and parse as an integer. -/
def extract_start_default (line : Str) : Option Nat :=
  match search_default_start line with
  | some timestamp_str =>
    let parts := splitOnChar '.' timestamp_str
    if parts.length = 2 then
      let last_3_first := takeLast 3 (parts.getD 0 [])
      let first_3_second := (parts.getD 1 []).take 3
      some (strToNat (last_3_first ++ first_3_second))
    else none
  | none => none

/-- `SwipeEventParser.extract_start_timestamp`: identical normalization on the
swipe pattern's capture. -/
def extract_start_swipe (line : Str) : Option Nat :=
  match search_swipe_start line with
  | some timestamp_str =>
    let parts := splitOnChar '.' timestamp_str
    if parts.length = 2 then
      let last_3_first := takeLast 3 (parts.getD 0 [])
      let first_3_second := (parts.getD 1 []).take 3
      some (strToNat (last_3_first ++ first_3_second))
    else none
  | none => none

/-- `SuspendEventParser.extract_start_timestamp`: the suspend pattern's
capture, normalized by the source's `before_dot`/`after_dot` computation. -/
def extract_start_suspend (line : Str) : Option Nat :=
  match search_suspend_start line with
  | some timestamp_str =>
    let parts := splitOnChar '.' timestamp_str
    if parts.length = 2 then
      let before_dot := parts.getD 0 []
      let after_dot := (parts.getD 1 []).take 3
      let last_digits_before := takeLast 3 before_dot
      some (strToNat (last_digits_before ++ after_dot))
    else none
  | none => none

/-- The normalization rule as §4.1 of the spec words it: given a captured
`seconds.fraction` string with exactly two dot-separated components, the
integer formed by the last 3 digits of the integer part concatenated with the
first 3 digits of the fractional part; otherwise absent.  Stated separately
from the three parser translations so the claim that all three implement this
one rule is a real comparison. -/
def spec_normalize_timestamp (cap : Str) : Option Nat :=
  let parts := splitOnChar '.' cap
  if parts.length = 2 then
    some (strToNat (takeLast 3 (parts.getD 0 []) ++ (parts.getD 1 []).take 3))
  else none

/-!  ## Python value helpers used by `LogProcessor.process_iteration` -/

/-- Truthiness of the `start_time` variable (`None` or an `int`): Python
`not start_time` is true for `None` and for `0`. -/
def pyFalsyOptNat : Option Nat → Bool
  | none => true
  | some v => v == 0

/-- Python `int(str)`: strip whitespace, optional sign, then digit groups
separated by single underscores; any other shape raises `ValueError`
(modelled as `none`). -/
def intDigitsTail : Str → Bool
  | [] => true
  | c :: t =>
    if c.isDigit then intDigitsTail t
    else if c = '_' then
      match t with
      | d :: t' => d.isDigit && intDigitsTail t'
      | [] => false
    else false

/-- Whether a (sign-free) string is a valid Python integer-literal body. -/
def intDigitsOk : Str → Bool
  | [] => false
  | c :: t => c.isDigit && intDigitsTail t

/-- Python `int(...)` applied to an arbitrary string, `none` when it would
raise `ValueError`. -/
def pyInt? (str : Str) : Option Int :=
  let t := pyStrip str
  match t with
  | '-' :: r => if intDigitsOk r then some (-(strToNat (r.filter (fun c => c != '_')) : Int)) else none
  | '+' :: r => if intDigitsOk r then some ((strToNat (r.filter (fun c => c != '_')) : Int)) else none
  | r => if intDigitsOk r then some ((strToNat (r.filter (fun c => c != '_')) : Int)) else none

/-- Insertion-ordered association-list lookup (Python `dict[k]` / `k in d`). -/
def dictLookup (k : Str) : List (Str × α) → Option α
  | [] => none
  | (k', v) :: t => if k' = k then some v else dictLookup k t

/-- Python `d[k] = v`: overwrite in place when the key exists (keeping its
first-insertion position), else append. -/
def dictInsert (k : Str) (v : α) (d : List (Str × α)) : List (Str × α) :=
  if (dictLookup k d).isSome then d.map (fun p => if p.1 = k then (k, v) else p)
  else d ++ [(k, v)]

/-- Python `max` over a nonempty list of integers (`ValueError` → `none`). -/
def pyMaxNat : List Nat → Option Nat
  | [] => none
  | h :: t => some (t.foldl Nat.max h)

/-!  ## The correlation engine (`logic/log_processor.py`, `process_iteration`) -/

/-- A stored height record (`heights_by_marker` values). -/
structure HeightInfo where
  height : Nat
  waveform : Str
  line : Str
deriving DecidableEq

/-- A stored end-time record (`end_times_by_marker` values). -/
structure EndInfo where
  time : Nat
  line : Str
deriving DecidableEq

/-- Python `max(end_times_by_marker.values(), key=lambda x: x['time'])`:
first element attaining the maximal `time` (Python `max` keeps the first of
equal candidates). -/
def pyMaxByTime : List EndInfo → Option EndInfo
  | [] => none
  | h :: t => some (t.foldl (fun acc x => if acc.time < x.time then x else acc) h)

/-- The local state of the `for line in lines` scan. -/
structure ScanState where
  start_time : Option Nat
  start_line : Option Str
  heights : List (Str × HeightInfo)
  end_times : List (Str × EndInfo)
  current_marker : Option Str
deriving DecidableEq

/-- The scan's initial state. -/
def initState : ScanState := ⟨none, none, [], [], none⟩

/-- First stage of the loop body: `if not start_time: possible_start = ...;
if possible_start: start_time = possible_start; start_line = line.strip()`.
Both truthiness tests are Python's: `None` and `0` are falsy. -/
def stepStart (parserStart : Str → Option Nat) (st : ScanState) (line : Str) : ScanState :=
  if pyFalsyOptNat st.start_time then
    match parserStart line with
    | some v =>
      if v = 0 then st
      else { st with start_time := some v, start_line := some (pyStrip line) }
    | none => st
  else st

/-- Second stage: `marker = parser.extract_marker(line); if marker:
current_marker = marker` (captures are nonempty, so truthiness is `isSome`). -/
def stepMarker (st : ScanState) (line : Str) : ScanState :=
  match extract_marker line with
  | some m => { st with current_marker := some m }
  | none => st

/-- The `current_marker` in effect for this line's height clause: the second
stage's update, falling back to the carried-over marker. -/
def active_marker_after (st : ScanState) (line : Str) : Option Str :=
  match extract_marker line with
  | some m => some m
  | none => st.current_marker

/-- The filter predicate of step 5 (`info['waveform'].lower() != "unknown"`). -/
def valid_waveform_entry (p : Str × HeightInfo) : Bool :=
  pyLower p.2.waveform != s "unknown"

/-- Third stage: `if "Sending update" in line and current_marker:` extract
height/waveform and overwrite `heights_by_marker[current_marker]`, mapping a
missing, empty or `"auto"` waveform name to `"unknown"`
(`waveform if waveform and waveform != "auto" else "unknown"`). -/
def stepHeight (st : ScanState) (line : Str) : ScanState :=
  if containsSub (s "Sending update") line then
    match st.current_marker with
    | some cm =>
      if cm = [] then st
      else
        match extract_height_and_waveform line with
        | some hw =>
          let wf := if hw.waveform ≠ [] ∧ hw.waveform ≠ s "auto" then hw.waveform else s "unknown"
          { st with heights := dictInsert cm ⟨hw.height, wf, pyStrip line⟩ st.heights }
        | none => st
    | none => st
  else st

/-- Fourth stage: `if "update end marker=" in line and "end time=" in line:`
extract the end marker id and end timestamp and, when the timestamp is
truthy (nonzero), overwrite `end_times_by_marker[end_marker]`. -/
def stepEnd (st : ScanState) (line : Str) : ScanState :=
  if containsSub (s "update end marker=") line && containsSub (s "end time=") line then
    match reSearch (matchLitDigits (s "update end marker=")) line with
    | some end_marker =>
      match extract_end_timestamp line with
      | some et =>
        if et = 0 then st
        else { st with end_times := dictInsert end_marker ⟨et, pyStrip line⟩ st.end_times }
      | none => st
    | none => st
  else st

/-- One iteration of the scan loop: blank lines (`if not line.strip():
continue`) are skipped, otherwise the four stages run in source order. -/
def scanStep (parserStart : Str → Option Nat) (st : ScanState) (line : Str) : ScanState :=
  if pyStrip line = [] then st
  else stepEnd (stepHeight (stepMarker (stepStart parserStart st line) line) line) line

/-- The whole scan over an iteration's lines. -/
def scanLines (parserStart : Str → Option Nat) (lines : List Str) : ScanState :=
  lines.foldl (scanStep parserStart) initState

/-- Mode dispatch: `"suspend"` and `"swipe"` select their parsers, any other
mode string falls back to the default parser. -/
def parserStartFor (mode : Str) : Str → Option Nat :=
  if mode = s "suspend" then extract_start_suspend
  else if mode = s "swipe" then extract_start_swipe
  else extract_start_default

/-- Step 5 of the engine: filter out `"unknown"`-waveform markers, falling
back to the unfiltered mapping when the filtered one is empty. -/
def valid_heights_of (heights : List (Str × HeightInfo)) : List (Str × HeightInfo) :=
  let vh := heights.filter valid_waveform_entry
  if vh = [] then heights else vh

/-- The tie set of step 6: markers of `valid` whose height equals `mh`, in
mapping order. -/
def tied_markers (valid : List (Str × HeightInfo)) (mh : Nat) : List Str :=
  (valid.filter (fun p => p.2.height == mh)).map Prod.fst

/-- The sort key of step 6: `int(m) if m.isdigit() else 0`. -/
def sort_key (m : Str) : Nat :=
  if !m.isEmpty && m.all Char.isDigit then strToNat m else 0

/-- The tie-break order: ascending sort key.  `list.sort(key=...)` is a
stable ascending sort, and a stable ascending sort is unique as a function,
so Mathlib's `insertionSort` with this total preorder computes exactly what
Python's sort does. -/
def key_le (a b : Str) : Prop := sort_key a ≤ sort_key b

instance : DecidableRel key_le := fun a b => Nat.decLe (sort_key a) (sort_key b)

instance : IsTotal Str key_le := ⟨fun a b => Nat.le_total (sort_key a) (sort_key b)⟩

instance : IsTrans Str key_le := ⟨fun _ _ _ h1 h2 => Nat.le_trans h1 h2⟩

/-- Step 6: maximum height (`max` raises on an empty mapping), tie set,
stable sort by numeric key, choose the last; when the tie set is somehow
empty, the first key of `valid` (an empty `valid` would raise `IndexError`). -/
def choose_marker (valid : List (Str × HeightInfo)) : Except Str Str :=
  match pyMaxNat (valid.map (fun p => p.2.height)) with
  | none => .error (s "ValueError")
  | some mh =>
    let sorted := List.insertionSort key_le (tied_markers valid mh)
    match sorted.getLast? with
    | some m => .ok m
    | none =>
      match valid with
      | [] => .error (s "IndexError")
      | p :: _ => .ok p.1

/-- Step 7: the chosen marker's recorded end time when present, else the
globally maximal end time, else no result. -/
def resolve_stop (chosen : Str) (end_times : List (Str × EndInfo)) : Option Nat :=
  match dictLookup chosen end_times with
  | some e => some e.time
  | none =>
    match pyMaxByTime (end_times.map Prod.snd) with
    | some e => some e.time
    | none => none

/-- Step 8, pre-division: `duration = end - start; if duration < 0:
duration += 1000000`. -/
def duration_corrected (stop start : Int) : Int :=
  let duration := stop - start
  if duration < 0 then duration + 1000000 else duration

/-- Step 8, final value: `duration / 1000.0`, modelled exactly in `ℚ`. -/
def duration_seconds (stop start : Int) : ℚ :=
  (duration_corrected stop start : ℚ) / 1000

/-- The result record built at the end of `process_iteration` (the
`'original_log'` key is added later, by `run`, and is not part of this
function's output). -/
structure IterResult where
  iteration : Int
  start : Nat
  stop : Nat
  marker : Str
  duration : ℚ
  max_height : Nat
  max_height_waveform : Str
  start_line : Option Str
  all_heights : List (Str × Nat × Str)
  mode : Str
  all_end_times : List (Str × EndInfo)
deriving DecidableEq

/-- The keys of the Python dict literal returned by `process_iteration`
(lines 158-171 of `logic/log_processor.py`), in source order. -/
def iter_result_keys : List Str :=
  [s "iteration", s "start", s "stop", s "marker", s "duration", s "max_height",
   s "max_height_waveform", s "start_line", s "all_heights", s "mode", s "all_end_times"]

/-- Steps 5-9 of the engine, after the completeness guard: `.error` models a
raised exception, `.ok none` models `return None`. -/
def build_result (st : ScanState) (start_time : Nat) (iteration_num mode : Str) :
    Except Str (Option IterResult) :=
  let valid_heights := valid_heights_of st.heights
  if valid_heights = [] then .ok none
  else
    match choose_marker valid_heights with
    | .error e => .error e
    | .ok chosen_marker =>
      match dictLookup chosen_marker valid_heights with
      | none => .error (s "KeyError")
      | some max_height_info =>
        match resolve_stop chosen_marker st.end_times with
        | none => .ok none
        | some stop =>
          match pyInt? iteration_num with
          | none => .error (s "ValueError")
          | some itn =>
            .ok (some
              { iteration := itn
                start := start_time
                stop := stop
                marker := chosen_marker
                duration := duration_seconds (stop : Int) (start_time : Int)
                max_height := max_height_info.height
                max_height_waveform := max_height_info.waveform
                start_line := st.start_line
                all_heights := st.heights.map (fun p => (p.1, p.2.height, p.2.waveform))
                mode := mode
                all_end_times := st.end_times })

/-- `LogProcessor.process_iteration`: scan, completeness guard
(`if not start_time or not heights_by_marker or not end_times_by_marker:
return None`, with Python truthiness: `None` and `0` are falsy, empty dicts
are falsy), then the selection/build phase. -/
def process_iteration (lines : List Str) (iteration_num mode : Str) :
    Except Str (Option IterResult) :=
  let parser := parserStartFor mode
  let st := scanLines parser lines
  match st.start_time with
  | none => .ok none
  | some start_time =>
    if start_time = 0 ∨ st.heights = [] ∨ st.end_times = [] then .ok none
    else build_result st start_time iteration_num mode

/-!  ## The iteration splitter (`LogProcessor.run`, lines 20-34) -/

/-- Anchored matcher for the split delimiter `ITERATION_(\d+)`: the literal,
then a nonempty maximal digit run (captured); returns the capture and the
text after the match. -/
def matchIterDelim (t : Str) : Option (Str × Str) :=
  if (s "ITERATION_").isPrefixOf t then
    let r := t.drop 10
    let ds := r.takeWhile Char.isDigit
    if ds = [] then none else some (ds, r.drop ds.length)
  else none

/-- `l₁.isPrefixOf l₂` forces `l₁.length ≤ l₂.length`. -/
theorem isPrefixOf_length_le : ∀ (l₁ l₂ : Str), l₁.isPrefixOf l₂ = true → l₁.length ≤ l₂.length
  | [], _, _ => Nat.zero_le _
  | _ :: _, [], h => by simp [List.isPrefixOf] at h
  | a :: t₁, b :: t₂, h => by
    simp only [List.isPrefixOf, Bool.and_eq_true] at h
    simpa using Nat.succ_le_succ (isPrefixOf_length_le t₁ t₂ h.2)

/-- A delimiter match strictly consumes input. -/
theorem matchIterDelim_length_lt {t ds rest : Str} (h : matchIterDelim t = some (ds, rest)) :
    rest.length < t.length := by
  unfold matchIterDelim at h
  split at h
  · next hpre =>
    dsimp only at h
    split at h
    · exact absurd h (by simp)
    · have h10 : 10 ≤ t.length := isPrefixOf_length_le _ _ hpre
      have hr : rest = (t.drop 10).drop ((t.drop 10).takeWhile Char.isDigit).length := by
        have := h
        simp only [Option.some.injEq, Prod.mk.injEq] at this
        exact this.2.symm
      subst hr
      simp only [List.length_drop]
      omega
  · exact absurd h (by simp)

/-- The core of `re.split(r'ITERATION_(\d+)', text)`: the text before the
first match, and the list of (capture, following block) pairs; scanning is
leftmost, continuing after each match. -/
def reSplitCore : Str → Str × List (Str × Str)
  | [] => ([], [])
  | c :: t =>
    match h : matchIterDelim (c :: t) with
    | some (ds, rest) =>
      let p := reSplitCore rest
      ([], (ds, p.1) :: p.2)
    | none =>
      let p := reSplitCore t
      (c :: p.1, p.2)
termination_by t => t.length
decreasing_by
  · exact matchIterDelim_length_lt h
  · simp

/-- The flat list Python's `re.split` returns: the pre-match text followed by
alternating capture/block tokens. -/
def reSplitList (text : Str) : List Str :=
  let p := reSplitCore text
  p.1 :: p.2.foldr (fun q acc => q.1 :: q.2 :: acc) []

/-- The pairing loop `for i in range(0, len(iterations), 2): if i+1 <
len(iterations): ...`: consecutive pairs, dropping an unpaired last token. -/
def pyPairUp : List Str → List (Str × Str)
  | a :: b :: t => (a, b) :: pyPairUp t
  | _ => []

/-- The iteration splitter of `LogProcessor.run`: `re.split(...)[1:]`, the
`["01", text]` fallback when that is empty, then pairing. -/
def split_iterations (text : Str) : List (Str × Str) :=
  let iterations := (reSplitList text).drop 1
  let iterations := if iterations = [] then [s "01", text] else iterations
  pyPairUp iterations

/-!  ## Concrete inputs used by witnesses and counterexamples -/

/-- A complete default-mode iteration: one start line, one height record
(whose waveform text matches no waveform pattern, hence `"unknown"`), one
end-time record for the same marker. -/
def cx_default_lines : List Str :=
  [s "button 1 up 12345.678", s "EPDC][2] b",
   s "Sending update. height=1200, waveform=GC16",
   s "update end marker=2 end time=12346000"]

/-- A complete suspend-mode iteration (the repository test scenario). -/
def cx_suspend_lines : List Str :=
  [s "def:pbpress:time=1751099650.205:Power button pressed",
   s "mxc_epdc_fb: [123] m",
   s "Sending update. height=1200, waveform=DU",
   s "update end marker=123 end time=1751099651234"]

/-- Two markers `"5"` and `"05"` (equal numeric sort key 5) with the same
maximal height, inserted in this order, plus a start and an end record. -/
def c3_lines_a : List Str :=
  [s "button 1 up 12345.678",
   s "EPDC][5] x", s "Sending update. waveform:0x2 (DU) height=100",
   s "EPDC][05] x", s "Sending update. waveform:0x2 (DU) height=100",
   s "update end marker=5 end time=12345900"]

/-- The same events as `c3_lines_a` with the two marker blocks swapped, so
the height mapping holds the same key/record pairs in the other insertion
order. -/
def c3_lines_b : List Str :=
  [s "button 1 up 12345.678",
   s "EPDC][05] x", s "Sending update. waveform:0x2 (DU) height=100",
   s "EPDC][5] x", s "Sending update. waveform:0x2 (DU) height=100",
   s "update end marker=5 end time=12345900"]

/-- The height record both `c3_lines_a` and `c3_lines_b` store under each of
their two markers. -/
def c3_rec : HeightInfo :=
  ⟨100, s "DU", s "Sending update. waveform:0x2 (DU) height=100"⟩

/-- An iteration whose only start event normalizes to 0, with heights and
end times present. -/
def c9_lines : List Str :=
  [s "button 1 up 000.000", s "EPDC][2] b",
   s "Sending update. height=5, waveform=x",
   s "update end marker=2 end time=12346000"]


/-!  ## Basic dictionary and max lemmas -/

theorem dictLookup_append (k : Str) (a b : List (Str × α)) :
    dictLookup k (a ++ b) =
      match dictLookup k a with
      | some v => some v
      | none => dictLookup k b := by
  induction a with
  | nil => simp [dictLookup]
  | cons p t ih =>
    obtain ⟨k', v'⟩ := p
    by_cases h : k' = k <;> simp [dictLookup, h, ih]

theorem dictLookup_map_replace (k : Str) (v : α) (d : List (Str × α))
    (hk : (dictLookup k d).isSome) :
    dictLookup k (d.map (fun p => if p.1 = k then (k, v) else p)) = some v := by
  induction d with
  | nil => simp [dictLookup] at hk
  | cons p t ih =>
    obtain ⟨k', v'⟩ := p
    rw [List.map_cons]
    by_cases h : k' = k
    · subst h
      have hrepl : (if (k', v').1 = k' then (k', v) else (k', v')) = (k', v) := by simp
      rw [hrepl]
      simp [dictLookup]
    · have hrepl : (if (k', v').1 = k then (k, v) else (k', v')) = (k', v') := by simp [h]
      rw [hrepl]
      simp only [dictLookup, h, if_false] at hk ⊢
      exact ih hk

theorem dictLookup_none_of_not_isSome (k : Str) (d : List (Str × α))
    (hk : ¬(dictLookup k d).isSome) : dictLookup k d = none := by
  cases h : dictLookup k d with
  | none => rfl
  | some v => rw [h] at hk; simp at hk

theorem dictInsert_lookup_self (k : Str) (v : α) (d : List (Str × α)) :
    dictLookup k (dictInsert k v d) = some v := by
  unfold dictInsert
  split
  · next hk => exact dictLookup_map_replace k v d hk
  · next hk =>
    rw [dictLookup_append, dictLookup_none_of_not_isSome k d hk]
    simp [dictLookup]

theorem dictLookup_isSome_of_mem_keys {k : Str} {d : List (Str × α)}
    (h : k ∈ d.map Prod.fst) : ∃ v, dictLookup k d = some v := by
  induction d with
  | nil => simp at h
  | cons p t ih =>
    obtain ⟨k', v'⟩ := p
    by_cases hk : k' = k
    · exact ⟨v', by simp [dictLookup, hk]⟩
    · simp only [List.map_cons, List.mem_cons] at h
      rcases h with h | h
      · exact absurd h.symm hk
      · simpa [dictLookup, hk] using ih h

theorem foldl_max_mem (t : List Nat) (a : Nat) : t.foldl Nat.max a ∈ a :: t := by
  induction t generalizing a with
  | nil => simp
  | cons b t ih =>
    have h := ih (Nat.max a b)
    simp only [List.foldl_cons]
    rcases List.mem_cons.1 h with h | h
    · rw [h]
      have h' : Nat.max a b = a ∨ Nat.max a b = b := max_choice a b
      rcases h' with h' | h' <;> rw [h'] <;> simp
    · simp [h]

theorem foldl_max_le (t : List Nat) (a : Nat) :
    a ≤ t.foldl Nat.max a ∧ ∀ x ∈ t, x ≤ t.foldl Nat.max a := by
  induction t generalizing a with
  | nil => exact ⟨Nat.le_refl _, by simp⟩
  | cons b t ih =>
    obtain ⟨h1, h2⟩ := ih (Nat.max a b)
    simp only [List.foldl_cons]
    refine ⟨Nat.le_trans (le_max_left a b) h1, ?_⟩
    intro x hx
    rcases List.mem_cons.1 hx with h3 | h3
    · rw [h3]
      exact Nat.le_trans (le_max_right a b) h1
    · exact h2 x h3

theorem pyMaxNat_spec {l : List Nat} (h : l ≠ []) :
    ∃ m, pyMaxNat l = some m ∧ m ∈ l ∧ ∀ x ∈ l, x ≤ m := by
  cases l with
  | nil => exact absurd rfl h
  | cons a t =>
    refine ⟨t.foldl Nat.max a, rfl, foldl_max_mem t a, ?_⟩
    intro x hx
    rcases List.mem_cons.1 hx with h3 | h3
    · rw [h3]
      exact (foldl_max_le t a).1
    · exact (foldl_max_le t a).2 x h3

theorem foldl_maxtime_mem (t : List EndInfo) (a : EndInfo) :
    t.foldl (fun acc x => if acc.time < x.time then x else acc) a ∈ a :: t := by
  induction t generalizing a with
  | nil => simp
  | cons b t ih =>
    have h := ih (if a.time < b.time then b else a)
    simp only [List.foldl_cons]
    rcases List.mem_cons.1 h with h | h
    · rw [h]
      split <;> simp
    · simp [h]

theorem foldl_maxtime_le (t : List EndInfo) (a : EndInfo) :
    a.time ≤ (t.foldl (fun acc x => if acc.time < x.time then x else acc) a).time ∧
      ∀ x ∈ t, x.time ≤ (t.foldl (fun acc x => if acc.time < x.time then x else acc) a).time := by
  induction t generalizing a with
  | nil => exact ⟨Nat.le_refl _, by simp⟩
  | cons b t ih =>
    obtain ⟨h1, h2⟩ := ih (if a.time < b.time then b else a)
    simp only [List.foldl_cons]
    have ha : a.time ≤ (if a.time < b.time then b else a).time := by split <;> omega
    have hb : b.time ≤ (if a.time < b.time then b else a).time := by split <;> omega
    refine ⟨Nat.le_trans ha h1, ?_⟩
    intro x hx
    rcases List.mem_cons.1 hx with h3 | h3
    · rw [h3]
      exact Nat.le_trans hb h1
    · exact h2 x h3

theorem pyMaxByTime_spec {l : List EndInfo} (h : l ≠ []) :
    ∃ e, pyMaxByTime l = some e ∧ e ∈ l ∧ ∀ x ∈ l, x.time ≤ e.time := by
  cases l with
  | nil => exact absurd rfl h
  | cons a t =>
    refine ⟨_, rfl, foldl_maxtime_mem t a, ?_⟩
    intro x hx
    rcases List.mem_cons.1 hx with h3 | h3
    · rw [h3]
      exact (foldl_maxtime_le t a).1
    · exact (foldl_maxtime_le t a).2 x h3

theorem valid_heights_of_ne_nil {heights : List (Str × HeightInfo)} (h : heights ≠ []) :
    valid_heights_of heights ≠ [] := by
  unfold valid_heights_of
  dsimp only
  split
  · exact h
  · assumption

/-!  ## Scan-step preservation lemmas -/

theorem stepStart_heights (p : Str → Option Nat) (st : ScanState) (line : Str) :
    (stepStart p st line).heights = st.heights := by
  unfold stepStart
  repeat' split
  all_goals rfl

theorem stepStart_end_times (p : Str → Option Nat) (st : ScanState) (line : Str) :
    (stepStart p st line).end_times = st.end_times := by
  unfold stepStart
  repeat' split
  all_goals rfl

theorem stepStart_current_marker (p : Str → Option Nat) (st : ScanState) (line : Str) :
    (stepStart p st line).current_marker = st.current_marker := by
  unfold stepStart
  repeat' split
  all_goals rfl

theorem stepStart_eq_of_zero {p : Str → Option Nat} {line : Str} (st : ScanState)
    (h : p line = some 0) : stepStart p st line = st := by
  unfold stepStart
  split
  · rw [h]
    simp
  · rfl

theorem stepMarker_start_time (st : ScanState) (line : Str) :
    (stepMarker st line).start_time = st.start_time := by
  unfold stepMarker
  repeat' split
  all_goals rfl

theorem stepMarker_start_line (st : ScanState) (line : Str) :
    (stepMarker st line).start_line = st.start_line := by
  unfold stepMarker
  repeat' split
  all_goals rfl

theorem stepMarker_heights (st : ScanState) (line : Str) :
    (stepMarker st line).heights = st.heights := by
  unfold stepMarker
  repeat' split
  all_goals rfl

theorem stepMarker_end_times (st : ScanState) (line : Str) :
    (stepMarker st line).end_times = st.end_times := by
  unfold stepMarker
  repeat' split
  all_goals rfl

theorem stepMarker_current_marker (st : ScanState) (line : Str) :
    (stepMarker st line).current_marker = active_marker_after st line := by
  unfold stepMarker active_marker_after
  repeat' split
  all_goals rfl

theorem stepHeight_start_time (st : ScanState) (line : Str) :
    (stepHeight st line).start_time = st.start_time := by
  unfold stepHeight
  repeat' split
  all_goals rfl

theorem stepHeight_start_line (st : ScanState) (line : Str) :
    (stepHeight st line).start_line = st.start_line := by
  unfold stepHeight
  repeat' split
  all_goals rfl

theorem stepHeight_end_times (st : ScanState) (line : Str) :
    (stepHeight st line).end_times = st.end_times := by
  unfold stepHeight
  repeat' split
  all_goals rfl

theorem stepEnd_start_time (st : ScanState) (line : Str) :
    (stepEnd st line).start_time = st.start_time := by
  unfold stepEnd
  repeat' split
  all_goals rfl

theorem stepEnd_start_line (st : ScanState) (line : Str) :
    (stepEnd st line).start_line = st.start_line := by
  unfold stepEnd
  repeat' split
  all_goals rfl

theorem stepEnd_heights (st : ScanState) (line : Str) :
    (stepEnd st line).heights = st.heights := by
  unfold stepEnd
  repeat' split
  all_goals rfl

theorem stepEnd_eq_of_zero {line : Str} (st : ScanState)
    (h : extract_end_timestamp line = some 0) : stepEnd st line = st := by
  unfold stepEnd
  split
  · split
    · rw [h]
      simp
    · rfl
  · rfl

theorem scanStep_start_unchanged_of_zero {p : Str → Option Nat} {line : Str} (st : ScanState)
    (h : p line = some 0) :
    (scanStep p st line).start_time = st.start_time ∧
      (scanStep p st line).start_line = st.start_line := by
  unfold scanStep
  split
  · exact ⟨rfl, rfl⟩
  · rw [stepEnd_start_time, stepHeight_start_time, stepMarker_start_time,
      stepEnd_start_line, stepHeight_start_line, stepMarker_start_line,
      stepStart_eq_of_zero st h]
    exact ⟨rfl, rfl⟩

theorem scanStep_end_times_unchanged_of_zero {line : Str} (p : Str → Option Nat) (st : ScanState)
    (h : extract_end_timestamp line = some 0) :
    (scanStep p st line).end_times = st.end_times := by
  unfold scanStep
  split
  · rfl
  · rw [stepEnd_eq_of_zero _ h, stepHeight_end_times, stepMarker_end_times, stepStart_end_times]

theorem stepStart_start_ne_zero {p : Str → Option Nat} {st : ScanState} {line : Str}
    (h : st.start_time ≠ some 0) : (stepStart p st line).start_time ≠ some 0 := by
  unfold stepStart
  split
  · split
    · next v hv =>
      split
      · exact h
      · next hv0 => simp [hv0]
    · exact h
  · exact h

theorem scanStep_start_ne_zero {p : Str → Option Nat} {st : ScanState} {line : Str}
    (h : st.start_time ≠ some 0) : (scanStep p st line).start_time ≠ some 0 := by
  unfold scanStep
  split
  · exact h
  · rw [stepEnd_start_time, stepHeight_start_time, stepMarker_start_time]
    exact stepStart_start_ne_zero h

theorem scanLines_start_ne_zero (p : Str → Option Nat) (lines : List Str) :
    (scanLines p lines).start_time ≠ some 0 := by
  unfold scanLines
  have base : initState.start_time ≠ some 0 := by simp [initState]
  generalize initState = st at base ⊢
  induction lines generalizing st with
  | nil => exact base
  | cons l t ih =>
    simp only [List.foldl_cons]
    exact ih _ (scanStep_start_ne_zero base)

theorem stepStart_start_none_of_zero {p : Str → Option Nat} {st : ScanState} {line : Str}
    (h : st.start_time = none) (hl : p line = none ∨ p line = some 0) :
    (stepStart p st line).start_time = none := by
  rcases hl with hl | hl
  · unfold stepStart
    rw [hl]
    split
    · exact h
    · exact h
  · rw [stepStart_eq_of_zero st hl]
    exact h

theorem scan_foldl_start_none (p : Str → Option Nat) :
    ∀ (lines : List Str) (st : ScanState), st.start_time = none →
      (∀ l ∈ lines, p l = none ∨ p l = some 0) →
      (lines.foldl (scanStep p) st).start_time = none
  | [], _, base, _ => base
  | l :: t, st, base, hall => by
    simp only [List.foldl_cons]
    refine scan_foldl_start_none p t _ ?_ (fun x hx => hall x (List.mem_cons.2 (Or.inr hx)))
    unfold scanStep
    split
    · exact base
    · rw [stepEnd_start_time, stepHeight_start_time, stepMarker_start_time]
      exact stepStart_start_none_of_zero base (hall l (List.mem_cons_self l t))

theorem scanLines_start_none (p : Str → Option Nat) (lines : List Str)
    (hall : ∀ l ∈ lines, p l = none ∨ p l = some 0) :
    (scanLines p lines).start_time = none :=
  scan_foldl_start_none p lines initState rfl hall

/-!  ## Selection-chain lemmas -/

theorem sorted_getLast_max : ∀ (L : List Str), L ≠ [] → L.Sorted key_le →
    ∃ m, L.getLast? = some m ∧ m ∈ L ∧ ∀ x ∈ L, sort_key x ≤ sort_key m
  | [], h, _ => absurd rfl h
  | [a], _, _ => by
    refine ⟨a, rfl, by simp, ?_⟩
    intro x hx
    rw [List.mem_singleton.1 hx]
  | a :: b :: t, _, hs => by
    obtain ⟨m, hm1, hm2, hm3⟩ := sorted_getLast_max (b :: t) (by simp) hs.of_cons
    refine ⟨m, ?_, List.mem_cons.2 (Or.inr hm2), ?_⟩
    · rw [List.getLast?_cons_cons]
      exact hm1
    · intro x hx
      rcases List.mem_cons.1 hx with h3 | h3
    
      · rw [h3]
        exact List.rel_of_sorted_cons hs m hm2
      · exact hm3 x h3

theorem tied_subset_keys {valid : List (Str × HeightInfo)} {mh : Nat} {m : Str}
    (h : m ∈ tied_markers valid mh) : m ∈ valid.map Prod.fst := by
  unfold tied_markers at h
  obtain ⟨p, hp, hpm⟩ := List.mem_map.1 h
  exact List.mem_map.2 ⟨p, (List.mem_filter.1 hp).1, hpm⟩

theorem choose_marker_spec {valid : List (Str × HeightInfo)} (hv : valid ≠ []) :
    ∃ mh c, pyMaxNat (valid.map (fun p => p.2.height)) = some mh ∧
      choose_marker valid = .ok c ∧ c ∈ tied_markers valid mh ∧
      ∀ m ∈ tied_markers valid mh, sort_key m ≤ sort_key c := by
  have hmap : valid.map (fun p => p.2.height) ≠ [] := by simpa using hv
  obtain ⟨mh, hmh, hmem, _⟩ := pyMaxNat_spec hmap
  obtain ⟨p, hp, hph⟩ := List.mem_map.1 hmem
  have htied : p.1 ∈ tied_markers valid mh := by
    unfold tied_markers
    exact List.mem_map.2 ⟨p, List.mem_filter.2 ⟨hp, by simp [hph]⟩, rfl⟩
  have htne : tied_markers valid mh ≠ [] := by
    intro hnil
    rw [hnil] at htied
    exact List.not_mem_nil _ htied
  have hsne : List.insertionSort key_le (tied_markers valid mh) ≠ [] := by
    intro hnil
    have hlen := (List.perm_insertionSort key_le (tied_markers valid mh)).length_eq
    rw [hnil] at hlen
    have : tied_markers valid mh = [] := by simpa using hlen.symm
    exact htne this
  obtain ⟨c, hc1, hc2, hc3⟩ :=
    sorted_getLast_max _ hsne (List.sorted_insertionSort key_le (tied_markers valid mh))
  refine ⟨mh, c, hmh, ?_, (List.mem_insertionSort key_le).1 hc2, ?_⟩
  · unfold choose_marker
    rw [hmh]
    dsimp only
    rw [hc1]
  · intro m hm
    exact hc3 m ((List.mem_insertionSort key_le).2 hm)

theorem resolve_stop_some {chosen : Str} {ends : List (Str × EndInfo)} (he : ends ≠ []) :
    ∃ t, resolve_stop chosen ends = some t := by
  cases h : dictLookup chosen ends with
  | some e =>
    refine ⟨e.time, ?_⟩
    unfold resolve_stop
    rw [h]
  | none =>
    have hm : ends.map Prod.snd ≠ [] := by simpa using he
    obtain ⟨e, he1, _, _⟩ := pyMaxByTime_spec hm
    refine ⟨e.time, ?_⟩
    unfold resolve_stop
    rw [h, he1]

theorem build_result_ok {st : ScanState} (start_time : Nat) {idn : Str} (mode : Str) {n : Int}
    (hh : st.heights ≠ []) (he : st.end_times ≠ []) (hid : pyInt? idn = some n) :
    ∃ r, build_result st start_time idn mode = .ok (some r) := by
  have hv := valid_heights_of_ne_nil hh
  obtain ⟨mh, c, _, hcm, hct, _⟩ := choose_marker_spec hv
  obtain ⟨info, hinfo⟩ := dictLookup_isSome_of_mem_keys (tied_subset_keys hct)
  obtain ⟨stp, hstp⟩ := @resolve_stop_some c st.end_times he
  refine ⟨?_, ?_⟩
  rotate_left
  unfold build_result
  dsimp only
  rw [if_neg hv, hcm]
  dsimp only
  rw [hinfo]
  dsimp only
  rw [hstp]
  dsimp only
  rw [hid]
  exact rfl

/-!  ## Process-level helper lemmas -/

theorem process_none_of_missing {lines : List Str} {idn mode : Str}
    (h : (scanLines (parserStartFor mode) lines).start_time = none ∨
         (scanLines (parserStartFor mode) lines).heights = [] ∨
         (scanLines (parserStartFor mode) lines).end_times = []) :
    process_iteration lines idn mode = .ok none := by
  unfold process_iteration
  dsimp only
  cases hst : (scanLines (parserStartFor mode) lines).start_time with
  | none => rfl
  | some v =>
    dsimp only
    rcases h with h | h
    · rw [hst] at h
      exact absurd h (by simp)
    · rw [if_pos (Or.inr h)]

theorem process_complete_ok {lines : List Str} {idn mode : Str} {n : Int}
    (hid : pyInt? idn = some n)
    (hs : (scanLines (parserStartFor mode) lines).start_time ≠ none)
    (hh : (scanLines (parserStartFor mode) lines).heights ≠ [])
    (he : (scanLines (parserStartFor mode) lines).end_times ≠ []) :
    ∃ r, process_iteration lines idn mode = .ok (some r) := by
  unfold process_iteration
  dsimp only
  cases hst : (scanLines (parserStartFor mode) lines).start_time with
  | none => exact absurd hst hs
  | some v =>
    dsimp only
    have hv0 : v ≠ 0 := by
      intro h0
      exact scanLines_start_ne_zero (parserStartFor mode) lines (h0 ▸ hst)
    rw [if_neg (by push_neg; exact ⟨hv0, hh, he⟩)]
    exact build_result_ok v mode hh he hid

theorem process_iteration_no_raise {lines : List Str} {idn mode : Str} {n : Int}
    (hid : pyInt? idn = some n) :
    ∃ v, process_iteration lines idn mode = .ok v := by
  unfold process_iteration
  dsimp only
  cases hst : (scanLines (parserStartFor mode) lines).start_time with
  | none => exact ⟨none, rfl⟩
  | some v =>
    dsimp only
    by_cases hguard : v = 0 ∨ (scanLines (parserStartFor mode) lines).heights = [] ∨
        (scanLines (parserStartFor mode) lines).end_times = []
    · rw [if_pos hguard]
      exact ⟨none, rfl⟩
    · have hg := hguard
      push_neg at hg
      rw [if_neg hguard]
      obtain ⟨r, hr⟩ := build_result_ok v mode hg.2.1 hg.2.2 hid
      exact ⟨some r, hr⟩

theorem process_some_inv {lines : List Str} {idn mode : Str} {r : IterResult}
    (h : process_iteration lines idn mode = .ok (some r)) :
    (scanLines (parserStartFor mode) lines).start_time ≠ none ∧
    (scanLines (parserStartFor mode) lines).heights ≠ [] ∧
    (scanLines (parserStartFor mode) lines).end_times ≠ [] := by
  refine ⟨?_, ?_, ?_⟩
  · intro hx
    rw [process_none_of_missing (Or.inl hx)] at h
    simp at h
  · intro hx
    rw [process_none_of_missing (Or.inr (Or.inl hx))] at h
    simp at h
  · intro hx
    rw [process_none_of_missing (Or.inr (Or.inr hx))] at h
    simp at h

theorem build_result_fields {st : ScanState} {start_time : Nat} {idn mode : Str} {r : IterResult}
    (h : build_result st start_time idn mode = .ok (some r)) :
    r.start = start_time ∧ r.duration = duration_seconds (r.stop : Int) (start_time : Int) := by
  unfold build_result at h
  dsimp only at h
  split at h
  · simp at h
  · split at h
    · simp at h
    · split at h
      · simp at h
      · split at h
        · simp at h
        · split at h
          · simp at h
          · simp only [Except.ok.injEq, Option.some.injEq] at h
            subst h
            exact ⟨rfl, rfl⟩

theorem process_iteration_duration {lines : List Str} {idn mode : Str} {r : IterResult}
    (h : process_iteration lines idn mode = .ok (some r)) :
    r.duration = duration_seconds (r.stop : Int) (r.start : Int) := by
  unfold process_iteration at h
  dsimp only at h
  split at h
  · simp at h
  · split at h
    · simp at h
    · obtain ⟨h1, h2⟩ := build_result_fields h
      rw [h2, h1]

/-!  ## Claim theorems -/

/-- C2: for every start and end timestamp in [0, 999999], the duration is
computed as end minus start, with 1,000,000 added exactly when the raw
difference is negative; the pre-division value always lies in [0, 999999];
the final duration field is that value divided by 1000 (seconds) and is
therefore always non-negative. -/
theorem C2_duration_arithmetic (start stop : Int)
    (hs0 : 0 ≤ start) (hs1 : start ≤ 999999) (he0 : 0 ≤ stop) (he1 : stop ≤ 999999) :
    (0 ≤ stop - start → duration_corrected stop start = stop - start) ∧
    (stop - start < 0 → duration_corrected stop start = stop - start + 1000000) ∧
    0 ≤ duration_corrected stop start ∧ duration_corrected stop start ≤ 999999 ∧
    duration_seconds stop start = (duration_corrected stop start : ℚ) / 1000 ∧
    0 ≤ duration_seconds stop start ∧
    ∀ (lines : List Str) (idn mode : Str) (r : IterResult),
      process_iteration lines idn mode = .ok (some r) →
      r.duration = duration_seconds (r.stop : Int) (r.start : Int) := by
  have hc : 0 ≤ duration_corrected stop start ∧ duration_corrected stop start ≤ 999999 := by
    unfold duration_corrected
    dsimp only
    split <;> omega
  refine ⟨?_, ?_, hc.1, hc.2, rfl, ?_, ?_⟩
  · intro h
    unfold duration_corrected
    dsimp only
    rw [if_neg (by omega)]
  · intro h
    unfold duration_corrected
    dsimp only
    rw [if_pos h]
  · unfold duration_seconds
    apply div_nonneg
    · exact_mod_cast hc.1
    · norm_num
  · intro lines idn mode r hr
    exact process_iteration_duration hr

/-- Witness for C2 at the default-mode test scenario's timestamps
(start 345678, stop 346000). -/
theorem C2_duration_arithmetic_witness :
    0 ≤ duration_corrected 346000 345678 ∧ duration_corrected 346000 345678 ≤ 999999 ∧
    0 ≤ duration_seconds 346000 345678 := by
  obtain ⟨_, _, h1, h2, _, h3, _⟩ :=
    C2_duration_arithmetic 345678 346000 (by norm_num) (by norm_num) (by norm_num) (by norm_num)
  exact ⟨h1, h2, h3⟩

/-- C4: all three mode parsers normalize a captured seconds.fraction start
timestamp by one shared rule (`spec_normalize_timestamp`: last 3 digits of
the integer part concatenated with the first 3 digits of the fraction); a
line whose pattern search fails yields absent (the `.bind` of `none`),
never an error. -/
theorem C4_shared_normalization (line : Str) :
    extract_start_default line = (search_default_start line).bind spec_normalize_timestamp ∧
    extract_start_swipe line = (search_swipe_start line).bind spec_normalize_timestamp ∧
    extract_start_suspend line = (search_suspend_start line).bind spec_normalize_timestamp := by
  refine ⟨?_, ?_, ?_⟩
  · unfold extract_start_default
    cases search_default_start line <;> simp [spec_normalize_timestamp]
  · unfold extract_start_swipe
    cases search_swipe_start line <;> simp [spec_normalize_timestamp]
  · unfold extract_start_suspend
    cases search_suspend_start line <;> simp [spec_normalize_timestamp]

/-!  ## Splitter lemmas and C7 -/

theorem pyPairUp_interleave (pairs : List (Str × Str)) :
    pyPairUp (pairs.foldr (fun q acc => q.1 :: q.2 :: acc) []) = pairs := by
  induction pairs with
  | nil => rfl
  | cons q t ih =>
    simp only [List.foldr_cons]
    rw [pyPairUp, ih]

theorem reSplitCore_nil : reSplitCore [] = ([], []) := by
  unfold reSplitCore
  rfl

theorem reSplitCore_no_match : ∀ (text : Str),
    (∀ i, matchIterDelim (text.drop i) = none) → (reSplitCore text).2 = []
  | [], _ => by rw [reSplitCore_nil]
  | c :: t, h => by
    unfold reSplitCore
    split
    · next ds rest heq =>
      have h0 := h 0
      rw [List.drop_zero] at h0
      rw [h0] at heq
      exact absurd heq (by simp)
    · dsimp only
      refine reSplitCore_no_match t (fun i => ?_)
      have := h (i + 1)
      rwa [List.drop_succ_cons] at this

theorem matchIterDelim_none_of_short {t : Str} (h : t.length < 10) :
    matchIterDelim t = none := by
  have hnp : (s "ITERATION_").isPrefixOf t = false := by
    cases hp : (s "ITERATION_").isPrefixOf t
    · rfl
    · have hle := isPrefixOf_length_le _ _ hp
      have h10 : (s "ITERATION_").length = 10 := rfl
      omega
  unfold matchIterDelim
  simp [hnp]

/-- C7: splitting a raw log on the `ITERATION_<digits>` delimiter yields the
ordered (captured digits, following block) pairs with pre-delimiter content
discarded (`(reSplitCore text).2`); when the delimiter pattern never matches
at any position, the splitter produces exactly one pair `("01", text)`. -/
theorem C7_splitter (text : Str) :
    ((∀ i, matchIterDelim (text.drop i) = none) → split_iterations text = [(s "01", text)]) ∧
    split_iterations text =
      (if (reSplitCore text).2 = [] then [(s "01", text)] else (reSplitCore text).2) := by
  have key : split_iterations text =
      (if (reSplitCore text).2 = [] then [(s "01", text)] else (reSplitCore text).2) := by
    unfold split_iterations reSplitList
    dsimp only
    cases hp : (reSplitCore text).2 with
    | nil => simp [pyPairUp]
    | cons q t =>
      simp only [List.drop_succ_cons, List.drop_zero, List.foldr_cons]
      rw [if_neg (by simp), if_neg (by simp)]
      exact pyPairUp_interleave (q :: t)
  refine ⟨?_, key⟩
  intro h
  rw [key, if_pos (reSplitCore_no_match text h)]

/-- Witness for C7: a text in which the delimiter never matches splits into
the single pair `("01", full text)`. -/
theorem C7_splitter_witness : split_iterations (s "hello") = [(s "01", s "hello")] := by
  refine (C7_splitter (s "hello")).1 (fun i => ?_)
  apply matchIterDelim_none_of_short
  have h5 : (s "hello").length = 5 := rfl
  have := List.length_drop i (s "hello")
  omega

/-- C1 (amended): for every sequence of lines and mode, and every iteration
id that parses as a Python integer, `process_iteration` returns a result
exactly when the scan found a start timestamp, at least one height record,
and at least one end-time record; and for every id whatsoever, if any of the
three is missing the call returns absent.  (Emitted records are complete by
construction of `IterResult`.) -/
theorem C1_amended (lines : List Str) (idn mode : Str) (n : Int)
    (hid : pyInt? idn = some n) :
    ((∃ r, process_iteration lines idn mode = .ok (some r)) ↔
      ((scanLines (parserStartFor mode) lines).start_time ≠ none ∧
       (scanLines (parserStartFor mode) lines).heights ≠ [] ∧
       (scanLines (parserStartFor mode) lines).end_times ≠ [])) ∧
    ∀ idn' : Str,
      ((scanLines (parserStartFor mode) lines).start_time = none ∨
       (scanLines (parserStartFor mode) lines).heights = [] ∨
       (scanLines (parserStartFor mode) lines).end_times = []) →
      process_iteration lines idn' mode = .ok none := by
  refine ⟨⟨?_, ?_⟩, ?_⟩
  · rintro ⟨r, hr⟩
    exact process_some_inv hr
  · rintro ⟨h1, h2, h3⟩
    exact process_complete_ok hid h1 h2 h3
  · intro idn' h
    exact process_none_of_missing h

/-- Counterexample to C1 as frozen: on a complete iteration the three scan
conditions all hold, yet with the iteration id `"x"` the call raises
`ValueError` (from `int(iteration_num)`) instead of returning a result. -/
theorem C1_counterexample :
    process_iteration cx_default_lines (s "x") (s "default") = .error (s "ValueError") ∧
    (scanLines (parserStartFor (s "default")) cx_default_lines).start_time ≠ none ∧
    (scanLines (parserStartFor (s "default")) cx_default_lines).heights ≠ [] ∧
    (scanLines (parserStartFor (s "default")) cx_default_lines).end_times ≠ [] := by
  refine ⟨by rfl, by decide, by decide, by decide⟩

/-- Witness for C1 (amended) on a concrete complete iteration with the
parseable id `"01"`. -/
theorem C1_amended_witness :
    ∃ r, process_iteration cx_default_lines (s "01") (s "default") = .ok (some r) :=
  (C1_amended cx_default_lines (s "01") (s "default") 1 (by decide)).1.mpr
    ⟨by decide, by decide, by decide⟩

/-- C8 (amended): for every sequence of lines, every mode, and every
iteration id that parses as a Python integer, `process_iteration` never
raises: it returns `.ok` of either a complete record or absent. -/
theorem C8_amended (lines : List Str) (idn mode : Str) (n : Int)
    (hid : pyInt? idn = some n) :
    ∃ v, process_iteration lines idn mode = .ok v :=
  process_iteration_no_raise hid

/-- Counterexample to C8 as frozen: a complete suspend-mode iteration with
iteration id `"abc"` raises `ValueError` from `int(iteration_num)`. -/
theorem C8_counterexample :
    process_iteration cx_suspend_lines (s "abc") (s "suspend") = .error (s "ValueError") := by
  rfl

/-- Witness for C8 (amended) at a concrete input. -/
theorem C8_amended_witness :
    ∃ v, process_iteration cx_suspend_lines (s "2") (s "suspend") = .ok v :=
  C8_amended cx_suspend_lines (s "2") (s "suspend") 2 (by decide)

/-- C3 (amended): with a nonempty filtered height mapping, the engine's
selection succeeds and picks a marker of the max-height tie set whose
numeric sort key (`int(m)` for digit ids, else 0) is maximal among the tie
set; whenever one tied marker's key strictly dominates all others, that
marker is chosen regardless of insertion order. -/
theorem C3_amended (valid : List (Str × HeightInfo)) (mh : Nat) (hv : valid ≠ [])
    (hmh : pyMaxNat (valid.map (fun p => p.2.height)) = some mh) :
    ∃ c, choose_marker valid = .ok c ∧ c ∈ tied_markers valid mh ∧
      (∀ m ∈ tied_markers valid mh, sort_key m ≤ sort_key c) ∧
      ∀ m ∈ tied_markers valid mh,
        (∀ m' ∈ tied_markers valid mh, m' ≠ m → sort_key m' < sort_key m) → c = m := by
  obtain ⟨mh', c, hmh', hcm, hct, hle⟩ := choose_marker_spec hv
  have hmm : mh' = mh := by
    rw [hmh] at hmh'
    exact (Option.some.inj hmh').symm
  subst hmm
  refine ⟨c, hcm, hct, hle, ?_⟩
  intro m hm hstrict
  by_contra hne
  have h1 := hstrict c hct hne
  have h2 := hle m hm
  omega

/-- Counterexample to C3 as frozen: markers `"5"` and `"05"` have the same
numeric value, so the stable sort keeps insertion order and `[-1]` picks
the one inserted last; the two line sequences store the same key/record
pairs yet the chosen marker differs (`"05"` versus `"5"`). -/
theorem C3_counterexample :
    (process_iteration c3_lines_a (s "01") (s "default")).map
        (Option.map IterResult.marker) = .ok (some (s "05")) ∧
    (process_iteration c3_lines_b (s "01") (s "default")).map
        (Option.map IterResult.marker) = .ok (some (s "5")) ∧
    (scanLines (parserStartFor (s "default")) c3_lines_a).heights =
      [(s "5", c3_rec), (s "05", c3_rec)] ∧
    (scanLines (parserStartFor (s "default")) c3_lines_b).heights =
      [(s "05", c3_rec), (s "5", c3_rec)] ∧
    (∀ p : Str × HeightInfo,
      p ∈ (scanLines (parserStartFor (s "default")) c3_lines_a).heights ↔
      p ∈ (scanLines (parserStartFor (s "default")) c3_lines_b).heights) ∧
    (scanLines (parserStartFor (s "default")) c3_lines_a).start_time =
      (scanLines (parserStartFor (s "default")) c3_lines_b).start_time ∧
    (scanLines (parserStartFor (s "default")) c3_lines_a).end_times =
      (scanLines (parserStartFor (s "default")) c3_lines_b).end_times := by
  have ha : (scanLines (parserStartFor (s "default")) c3_lines_a).heights =
      [(s "5", c3_rec), (s "05", c3_rec)] := by decide
  have hb : (scanLines (parserStartFor (s "default")) c3_lines_b).heights =
      [(s "05", c3_rec), (s "5", c3_rec)] := by decide
  refine ⟨by rfl, by rfl, ha, hb, ?_, by rfl, by rfl⟩
  intro p
  rw [ha, hb]
  simp only [List.mem_cons, List.not_mem_nil, or_false]
  tauto

/-- Witness for C3 (amended): two markers with distinct heights; the tie
set is the singleton of the max-height marker, which is chosen. -/
theorem C3_amended_witness :
    ∃ c, choose_marker [(s "2", ⟨1200, s "GC16", []⟩), (s "1", ⟨800, s "DU", []⟩)] = .ok c ∧
      c ∈ tied_markers [(s "2", ⟨1200, s "GC16", []⟩), (s "1", ⟨800, s "DU", []⟩)] 1200 ∧
      (∀ m ∈ tied_markers [(s "2", ⟨1200, s "GC16", []⟩), (s "1", ⟨800, s "DU", []⟩)] 1200,
        sort_key m ≤ sort_key c) ∧
      ∀ m ∈ tied_markers [(s "2", ⟨1200, s "GC16", []⟩), (s "1", ⟨800, s "DU", []⟩)] 1200,
        (∀ m' ∈ tied_markers [(s "2", ⟨1200, s "GC16", []⟩), (s "1", ⟨800, s "DU", []⟩)] 1200,
          m' ≠ m → sort_key m' < sort_key m) → c = m :=
  C3_amended [(s "2", ⟨1200, s "GC16", []⟩), (s "1", ⟨800, s "DU", []⟩)] 1200
    (by decide) (by decide)

/-- C5: the valid-waveform filter keeps exactly the height entries whose
waveform is not, case-insensitively, `"unknown"`; when the filtered mapping
is empty the engine falls back to the full mapping, and an iteration with a
start time, heights and end times (and a parseable id) still yields a
result even when every stored waveform is `"unknown"`. -/
theorem C5_filter_fallback (lines : List Str) (idn mode : Str) (n : Int)
    (hid : pyInt? idn = some n)
    (hs : (scanLines (parserStartFor mode) lines).start_time ≠ none)
    (hh : (scanLines (parserStartFor mode) lines).heights ≠ [])
    (he : (scanLines (parserStartFor mode) lines).end_times ≠ [])
    (hall : ∀ p ∈ (scanLines (parserStartFor mode) lines).heights,
      pyLower p.2.waveform = s "unknown") :
    (∀ (d : List (Str × HeightInfo)) (p : Str × HeightInfo),
        p ∈ d.filter valid_waveform_entry ↔ p ∈ d ∧ pyLower p.2.waveform ≠ s "unknown") ∧
    valid_heights_of (scanLines (parserStartFor mode) lines).heights =
      (scanLines (parserStartFor mode) lines).heights ∧
    ∃ r, process_iteration lines idn mode = .ok (some r) := by
  refine ⟨?_, ?_, process_complete_ok hid hs hh he⟩
  · intro d p
    rw [List.mem_filter]
    unfold valid_waveform_entry
    constructor
    · rintro ⟨h1, h2⟩
      exact ⟨h1, by simpa using h2⟩
    · rintro ⟨h1, h2⟩
      exact ⟨h1, by simpa using h2⟩
  · have hfil : (scanLines (parserStartFor mode) lines).heights.filter
        valid_waveform_entry = [] := by
      rw [List.filter_eq_nil_iff]
      intro p hp
      unfold valid_waveform_entry
      simp [hall p hp]
    unfold valid_heights_of
    dsimp only
    rw [hfil]
    simp

/-- Witness for C5 on a concrete complete iteration whose only height
record's waveform text matches no waveform pattern and is therefore stored
as `"unknown"`. -/
theorem C5_filter_fallback_witness :
    ∃ r, process_iteration cx_default_lines (s "01") (s "default") = .ok (some r) ∧
      valid_heights_of (scanLines (parserStartFor (s "default")) cx_default_lines).heights =
        (scanLines (parserStartFor (s "default")) cx_default_lines).heights := by
  obtain ⟨hfil, hvh, r, hr⟩ := C5_filter_fallback cx_default_lines (s "01") (s "default") 1
    (by decide) (by decide) (by decide) (by decide) (by decide)
  exact ⟨r, hr, hvh⟩

/-- C6 (amended): when the chosen marker has an entry in the end-time
mapping its recorded time becomes the stop time; when it has no entry but
the mapping is non-empty, the stop time comes from an end-time record of
globally maximal time; with a non-empty mapping resolution always yields a
stop time (never an error or a missing stop).  The emitted record carries
no stop-line field. -/
theorem C6_amended (chosen : Str) (ends : List (Str × EndInfo)) (he : ends ≠ []) :
    (∀ e, dictLookup chosen ends = some e → resolve_stop chosen ends = some e.time) ∧
    (dictLookup chosen ends = none →
      ∃ e, e ∈ ends.map Prod.snd ∧ (∀ x ∈ ends.map Prod.snd, x.time ≤ e.time) ∧
        resolve_stop chosen ends = some e.time) ∧
    ∃ t, resolve_stop chosen ends = some t := by
  refine ⟨?_, ?_, resolve_stop_some he⟩
  · intro e hlk
    unfold resolve_stop
    rw [hlk]
  · intro hlk
    have hm : ends.map Prod.snd ≠ [] := by simpa using he
    obtain ⟨e, he1, he2, he3⟩ := pyMaxByTime_spec hm
    refine ⟨e, he2, he3, ?_⟩
    unfold resolve_stop
    rw [hlk, he1]

/-- Counterexample to C6 as frozen: on a concrete run whose chosen marker
does have an end-time entry, the entry's time becomes the stop time, but no
stop line exists anywhere in the result: the dict literal returned by
`process_iteration` has no `"stop_line"` key. -/
theorem C6_counterexample :
    (process_iteration cx_default_lines (s "01") (s "default")).map
        (Option.map IterResult.marker) = .ok (some (s "2")) ∧
    (process_iteration cx_default_lines (s "01") (s "default")).map
        (Option.map IterResult.stop) = .ok (some 346000) ∧
    (dictLookup (s "2")
        (scanLines (parserStartFor (s "default")) cx_default_lines).end_times).isSome = true ∧
    s "stop_line" ∉ iter_result_keys := by
  refine ⟨by rfl, by rfl, by rfl, by decide⟩

/-- Witness for C6 (amended): a marker missing from a nonempty end-time
mapping resolves to the globally maximal recorded time. -/
theorem C6_amended_witness :
    ∃ t, resolve_stop (s "9") [(s "1", ⟨900, []⟩), (s "2", ⟨950, []⟩)] = some t :=
  (C6_amended (s "9") [(s "1", ⟨900, []⟩), (s "2", ⟨950, []⟩)] (by decide)).2.2

/-!  ## Substring and strip lemmas for C9/C10 -/

theorem isPrefixOf_mem_subset : ∀ (l₁ l₂ : Str), l₁.isPrefixOf l₂ = true → ∀ x ∈ l₁, x ∈ l₂
  | [], _, _, x, hx => absurd hx (List.not_mem_nil x)
  | _ :: _, [], h, _, _ => by simp [List.isPrefixOf] at h
  | a :: t₁, b :: t₂, h, x, hx => by
    simp only [List.isPrefixOf, Bool.and_eq_true] at h
    have hab : a = b := by simpa using h.1
    rcases List.mem_cons.1 hx with h3 | h3
    · rw [h3, ← hab]
      exact List.mem_cons_self _ _
    · exact List.mem_cons.2 (Or.inr (isPrefixOf_mem_subset t₁ t₂ h.2 x h3))

theorem containsSub_mem {needle : Str} (c : Char) (hc : c ∈ needle) :
    ∀ (hay : Str), containsSub needle hay = true → c ∈ hay
  | [], h => isPrefixOf_mem_subset needle [] h c hc
  | a :: t, h => by
    unfold containsSub at h
    rcases Bool.or_eq_true_iff.1 h with h | h
    · exact isPrefixOf_mem_subset _ _ h c hc
    · exact List.mem_cons.2 (Or.inr (containsSub_mem c hc t h))

theorem mem_dropWhile_of_not {p : Char → Bool} {c : Char} :
    ∀ {l : Str}, c ∈ l → p c = false → c ∈ l.dropWhile p := by
  intro l
  induction l with
  | nil => intro h _; exact absurd h (List.not_mem_nil c)
  | cons a t ih =>
    intro h hp
    rw [List.dropWhile_cons]
    split
    · next hpa =>
      rcases List.mem_cons.1 h with h3 | h3
      · rw [h3] at hp
        rw [hp] at hpa
        exact absurd hpa (by simp)
      · exact ih h3 hp
    · exact h

theorem pyStrip_ne_nil {l : Str} {c : Char} (hc : c ∈ l) (hns : pyIsSpace c = false) :
    pyStrip l ≠ [] := by
  unfold pyStrip
  have h1 : c ∈ l.dropWhile pyIsSpace := mem_dropWhile_of_not hc hns
  have h2 : c ∈ (l.dropWhile pyIsSpace).reverse := List.mem_reverse.2 h1
  have h3 : c ∈ ((l.dropWhile pyIsSpace).reverse).dropWhile pyIsSpace :=
    mem_dropWhile_of_not h2 hns
  have h4 : c ∈ (((l.dropWhile pyIsSpace).reverse).dropWhile pyIsSpace).reverse :=
    List.mem_reverse.2 h3
  intro hnil
  rw [hnil] at h4
  exact List.not_mem_nil c h4

/-- C9: a start extraction equal to 0 is treated exactly as no match (the
scan step leaves `start_time` and `start_line` unchanged); an end timestamp
whose last six digits are all zeros is never recorded; and an iteration all
of whose start extractions are absent or zero yields absent. -/
theorem C9_zero_timestamps (mode : Str) (st : ScanState) (line : Str)
    (lines : List Str) (idn : Str) :
    ((parserStartFor mode) line = some 0 →
      (scanStep (parserStartFor mode) st line).start_time = st.start_time ∧
      (scanStep (parserStartFor mode) st line).start_line = st.start_line) ∧
    (extract_end_timestamp line = some 0 →
      (scanStep (parserStartFor mode) st line).end_times = st.end_times) ∧
    ((∀ l ∈ lines, (parserStartFor mode) l = none ∨ (parserStartFor mode) l = some 0) →
      process_iteration lines idn mode = .ok none) := by
  refine ⟨?_, ?_, ?_⟩
  · intro h
    exact scanStep_start_unchanged_of_zero st h
  · intro h
    exact scanStep_end_times_unchanged_of_zero (parserStartFor mode) st h
  · intro hall
    exact process_none_of_missing (Or.inl (scanLines_start_none _ lines hall))

/-- Witness for C9: `button 1 up 000.000` normalizes to 0 and sets nothing;
`end time=1000000` has last six digits zero and records nothing; a complete-
looking iteration whose only start event normalizes to 0 yields absent. -/
theorem C9_zero_timestamps_witness :
    (scanStep (parserStartFor (s "default")) initState (s "button 1 up 000.000")).start_time =
      initState.start_time ∧
    (scanStep (parserStartFor (s "default")) initState
      (s "update end marker=2 end time=1000000")).end_times = initState.end_times ∧
    process_iteration c9_lines (s "01") (s "default") = .ok none := by
  refine ⟨?_, ?_, ?_⟩
  · exact ((C9_zero_timestamps (s "default") initState (s "button 1 up 000.000")
      c9_lines (s "01")).1 (by decide)).1
  · exact (C9_zero_timestamps (s "default") initState
      (s "update end marker=2 end time=1000000") c9_lines (s "01")).2.1 (by decide)
  · exact (C9_zero_timestamps (s "default") initState (s "x") c9_lines (s "01")).2.2
      (by decide)

/-- C10: a `Sending update` line processed under an active (nonempty)
marker whose extracted waveform name is exactly `"auto"` stores a height
record whose waveform field is the literal `"unknown"`, and that record
fails the valid-waveform filter predicate. -/
theorem C10_auto_unknown (p : Str → Option Nat) (st : ScanState) (line m : Str) (hw : HW)
    (h1 : containsSub (s "Sending update") line = true)
    (h2 : active_marker_after st line = some m) (h3 : m ≠ [])
    (h4 : extract_height_and_waveform line = some hw) (h5 : hw.waveform = s "auto") :
    dictLookup m (scanStep p st line).heights =
      some ⟨hw.height, s "unknown", pyStrip line⟩ ∧
    valid_waveform_entry (m, ⟨hw.height, s "unknown", pyStrip line⟩) = false := by
  have hstrip : pyStrip line ≠ [] :=
    pyStrip_ne_nil (containsSub_mem 'S' (by decide) line h1) (by decide)
  constructor
  · unfold scanStep
    rw [if_neg hstrip, stepEnd_heights]
    have hcm : (stepMarker (stepStart p st line) line).current_marker = some m := by
      rw [stepMarker_current_marker]
      unfold active_marker_after at h2 ⊢
      cases hx : extract_marker line with
      | some mm =>
        rw [hx] at h2
        exact h2
      | none =>
        rw [hx] at h2
        rw [stepStart_current_marker]
        exact h2
    unfold stepHeight
    rw [if_pos h1, hcm]
    dsimp only
    rw [if_neg h3, h4]
    dsimp only
    rw [if_neg (by rw [h5]; simp), stepMarker_heights, stepStart_heights]
    exact dictInsert_lookup_self m _ st.heights
  · unfold valid_waveform_entry
    dsimp only
    decide

/-- Witness for C10: a concrete `Sending update` line whose waveform
capture is `auto`, under active marker `"5"`, stores `"unknown"`. -/
theorem C10_auto_unknown_witness :
    dictLookup (s "5")
      (scanStep extract_start_default ⟨none, none, [], [], some (s "5")⟩
        (s "Sending update. waveform:0x2 (auto) height=100")).heights =
      some ⟨100, s "unknown", s "Sending update. waveform:0x2 (auto) height=100"⟩ ∧
    valid_waveform_entry
      (s "5", ⟨100, s "unknown", s "Sending update. waveform:0x2 (auto) height=100"⟩) = false := by
  have h := C10_auto_unknown extract_start_default ⟨none, none, [], [], some (s "5")⟩
    (s "Sending update. waveform:0x2 (auto) height=100") (s "5") ⟨100, s "auto"⟩
    (by decide) (by decide) (by decide) (by decide) (by decide)
  exact h
